import Mathlib

/-!
# Verification of the parallel matrix-multiplication engine

Shallow embedding of `src/src/matrix.rs` from the `concurrency` repository:
a dense row-major `Matrix<T>`, a `multiply` that fans one task per output
cell out to `NUM_THREADS` worker threads over per-worker mpsc queues, each
task carrying a single-use oneshot reply channel, and a collector that
drains the reply channels in submission order.

Modelling decisions (all traceable to the source):

* `usize` is modelled as `Nat`; `Vec<T>` as `List T`; `T::default()` for the
  numeric element types in scope is the zero of the type, written `0`.
* The concurrent protocol is deterministic at the level of observable
  results, so it is embedded as a pure function:
  - each worker owns one mpsc queue fed only by the dispatcher thread, so a
    worker's queue content is exactly the submission-order sublist of tasks
    with `idx % NUM_THREADS` equal to its number (mpsc is FIFO per sender);
  - the worker loop (`for msg in rx { let val = dot_product(..)?; ... }`)
    answers tasks in queue order until the first failing `dot_product`;
    the `?` then terminates the worker thread, dropping its queue receiver
    and every pending message, hence every pending oneshot sender;
  - a oneshot `Receiver::recv()` (crate `oneshot`) returns `Ok(v)` when the
    worker sent `v` and `Err(RecvError)` when the sender was dropped
    without sending; it never blocks forever, because every sender is
    either used or dropped (worker death drops queued messages, and a
    failed `senders[..].send(msg)` drops `msg` inside the returned
    `SendError`).  The outcome of one task's reply channel is therefore
    `Option T`: `some v` for a delivered value, `none` for `RecvError`.
* Rust slice indexing that can panic is not hidden: the bounds actually
  required by `multiply`'s accesses are collected in `accessesInBounds`
  and proved reachable-free under the §3 length invariant (`wf`).
-/

namespace Concurrency

variable {T : Type}

/-- `Vector` from the crate root (`use crate::{dot_product, Vector}`): an
ordered sequence of numeric elements (spec §3). -/
structure Vector (T : Type) where
  elements : List T
  deriving DecidableEq

/-- Modelled from the spec: `dot_product` lives in the crate root and its
file is not under `src/`; spec §4.5 defines it.  Fails iff the lengths
differ; otherwise computes `Σ a[k]*b[k]` for `k ∈ [0, length)`,
accumulating left-to-right starting from `T`'s zero/default value. -/
def dot_product [Zero T] [Add T] [Mul T] (a b : Vector T) : Except String T :=
  if a.elements.length ≠ b.elements.length then
    Except.error "Dot product length mismatch"
  else
    Except.ok ((List.range a.elements.length).foldl
      (fun acc k => acc + a.elements.getD k 0 * b.elements.getD k 0) 0)

/-- `Matrix<T> { rows: usize, columns: usize, data: Vec<T> }`. -/
structure Matrix (T : Type) where
  rows : Nat
  columns : Nat
  data : List T
  deriving DecidableEq

/-- `Matrix::new(data, rows, columns)` — wraps the fields with no
validation. -/
def Matrix.new (data : List T) (rows columns : Nat) : Matrix T :=
  { rows := rows, columns := columns, data := data }

/-- The §3 length invariant `data.length == rows * columns` (a caller
contract; `Matrix::new` does not enforce it). -/
def wf (m : Matrix T) : Prop := m.data.length = m.rows * m.columns

instance (m : Matrix T) : Decidable (wf m) := by
  unfold wf; infer_instance

/-- Element `(i,j)` of a matrix, stored at flat index `i*columns + j`
(spec §3). -/
def entry [Zero T] (m : Matrix T) (i j : Nat) : T :=
  m.data.getD (i * m.columns + j) 0

/-- The standard sequential matrix-product cell: the dot product of row `i`
of `a` and column `j` of `b`, `Σ_{k < a.columns} a(i,k) * b(k,j)`. -/
def matMulSpec [Zero T] [Add T] [Mul T] (a b : Matrix T) (i j : Nat) : T :=
  ((List.range a.columns).map (fun k => entry a i k * entry b k j)).sum

/-- `const NUM_THREADS: usize = 4`. -/
def NUM_THREADS : Nat := 4

/-- `.iter().step_by(step)` on a slice, with a skip countdown: yield when
the countdown is `0` (then reset it to `step - 1`), otherwise skip.  This
visits exactly the positions `0, step, 2*step, ...` of the list, as Rust's
`step_by` does for `step ≥ 1`. -/
def stepByAux (step : Nat) : Nat → List T → List T
  | _, [] => []
  | 0, x :: xs => x :: stepByAux step (step - 1) xs
  | k + 1, _ :: xs => stepByAux step k xs

/-- `l.iter().step_by(step).collect()`. -/
def stepBy (l : List T) (step : Nat) : List T := stepByAux step 0 l

/-- `MsgInput<T> { idx, row, col }`: the task payload — destination index
in the output, the row operand and the column operand. -/
structure MsgInput (T : Type) where
  idx : Nat
  row : Vector T
  col : Vector T
  deriving DecidableEq

/-- `MsgOutput<T> { idx, val }`: a worker's reply. -/
structure MsgOutput (T : Type) where
  idx : Nat
  val : T
  deriving DecidableEq

/-- The task built for output cell `(i, j)` in `multiply`'s dispatch loop:
`idx = i*other.columns + j`, row slice
`self.data[i*self.columns..(i+1)*self.columns]`, column gather
`other.data[j..].iter().step_by(other.columns)`. -/
def mkTask (a b : Matrix T) (i j : Nat) : MsgInput T :=
  { idx := i * b.columns + j
  , row := Vector.mk ((a.data.drop (i * a.columns)).take a.columns)
  , col := Vector.mk (stepBy (b.data.drop j) b.columns) }

/-- All tasks built by the double dispatch loop
`for i in 0..self.rows { for j in 0..other.columns { ... } }`,
in submission (row-major) order. -/
def taskInputs (a b : Matrix T) : List (MsgInput T) :=
  (List.range a.rows).flatMap fun i =>
    (List.range b.columns).map fun j => mkTask a b i j

/-- The tasks actually dispatched by a `multiply` call: none when the
dimension precondition fails (the function returns before the dispatch
loop), otherwise all of `taskInputs`. -/
def dispatchedTasks (a b : Matrix T) : List (MsgInput T) :=
  if a.columns ≠ b.rows then [] else taskInputs a b

/-- The queue of worker `w`: the dispatcher routes each task through
`senders[idx % NUM_THREADS]`, and mpsc preserves the submission order of
the single producing thread. -/
def workerQueue (ts : List (MsgInput T)) (w : Nat) : List (MsgInput T) :=
  ts.filter fun t => t.idx % NUM_THREADS == w

/-- The reply-channel outcome, within one worker's queue, for the task with
destination index `i`: the worker answers tasks in queue order
(`for msg in rx { let val = dot_product(msg.input.row, msg.input.col)?;
msg.sender.send(MsgOutput::new(msg.input.idx, val)) ... }`); the first
failing dot product terminates the worker, so the failing task and every
later one in the queue never receive a value (their oneshot senders are
dropped): outcome `none`. -/
def workerReplyFor [Zero T] [Add T] [Mul T] :
    List (MsgInput T) → Nat → Option T
  | [], _ => none
  | t :: ts, i =>
    match dot_product t.row t.col with
    | Except.error _ => none
    | Except.ok v => if t.idx == i then some v else workerReplyFor ts i

/-- The outcome of the oneshot reply channel retained for task `t` of a
`multiply` call: `some v` if the worker `t.idx % NUM_THREADS` delivered
`v`, `none` if the sender was dropped (worker died on a failed dot
product), in which case `recv()` returns `Err(RecvError)`. -/
def taskReply [Zero T] [Add T] [Mul T] (a b : Matrix T) (t : MsgInput T) :
    Option T :=
  workerReplyFor (workerQueue (taskInputs a b) (t.idx % NUM_THREADS)) t.idx

/-- The collector's writes, `data[output.idx] = output.val`, applied in the
order the replies are drained. -/
def applyWrites (ws : List (MsgOutput T)) (d : List T) : List T :=
  ws.foldl (fun acc o => acc.set o.idx o.val) d

/-- The collector loop `for rx in receivers { let output = rx.recv()?;
data[output.idx] = output.val; }`: each receiver yields either a reply
(`some`) or `Err(RecvError)` (`none`), and the `?` aborts the whole
`multiply` call at the first failed receive. -/
def collectLoop : List (Option (MsgOutput T)) → List T → Option (List T)
  | [], d => some d
  | none :: _, _ => none
  | some o :: rest, d => collectLoop rest (d.set o.idx o.val)

/-- Result of `Matrix::multiply`: `Err` with the dimension message, `Err`
propagated from a failed collector `recv()`, a panic of the calling thread
(an out-of-range slice index in the dispatch loop), or `Ok` with the
product. -/
inductive MultiplyResult (T : Type) where
  | dimensionMismatch : MultiplyResult T
  | recvError : MultiplyResult T
  | panicked : MultiplyResult T
  | ok : Matrix T → MultiplyResult T
  deriving DecidableEq

/-- The panicking bounds of the two slice expressions the dispatch loop
evaluates for each cell `(i, j)`: the row slice
`self.data[i*self.columns..(i+1)*self.columns]` requires
`(i+1)*self.columns <= self.data.len()` and the gather start
`other.data[j..]` requires `j <= other.data.len()`; Rust aborts the call
with a panic when either is violated. -/
def dispatchInBounds (a b : Matrix T) : Bool :=
  (List.range a.rows).all fun i =>
    (List.range b.columns).all fun j =>
      decide ((i + 1) * a.columns ≤ a.data.length) && decide (j ≤ b.data.length)

/-- `Matrix::multiply`: dimension precondition, dispatch of one task per
output cell into the worker pool (panicking if a slice index is out of
range), then collection of every reply in submission order into
`vec![T::default(); matrix_len]`. -/
def multiply [Zero T] [Add T] [Mul T] (self other : Matrix T) :
    MultiplyResult T :=
  if self.columns ≠ other.rows then MultiplyResult.dimensionMismatch
  else if dispatchInBounds self other then
    match collectLoop
        ((taskInputs self other).map fun t =>
          (taskReply self other t).map fun v => MsgOutput.mk t.idx v)
        (List.replicate (self.rows * other.columns) 0) with
    | none => MultiplyResult.recvError
    | some data =>
      MultiplyResult.ok { rows := self.rows, columns := other.columns, data := data }
  else MultiplyResult.panicked

/-- Result of the operator form `a * b`: either a matrix or a panic of the
calling thread. -/
inductive MulOutcome (T : Type) where
  | value : Matrix T → MulOutcome T
  | panicked : MulOutcome T
  deriving DecidableEq

/-- `impl Mul for Matrix`: `fn mul(self, rhs) { self.multiply(&rhs).unwrap() }`
— the value on `Ok`, a panic of the calling thread on any `Err`. -/
def mul [Zero T] [Add T] [Mul T] (self rhs : Matrix T) : MulOutcome T :=
  match multiply self rhs with
  | MultiplyResult.ok m => MulOutcome.value m
  | _ => MulOutcome.panicked

/-- The bounds required by the slice/index accesses `multiply` performs,
for every iteration `(i, j)` of the dispatch loop: the row slice
`self.data[i*self.columns..(i+1)*self.columns]`, the gather start
`other.data[j..]`, and the collector write `data[output.idx]` into the
buffer of length `self.rows * other.columns`. -/
def accessesInBounds (a b : Matrix T) : Prop :=
  ∀ i j, i < a.rows → j < b.columns →
    (i + 1) * a.columns ≤ a.data.length ∧ j ≤ b.data.length ∧
      i * b.columns + j < a.rows * b.columns

/-- `impl Display for Matrix` (src lines 33–48): `write!(f, "{{")`, then for
every row and column `write!(f, "{} ", data[i*columns+j])` followed by
`" "` for every non-last column and `", "` after every non-last row, and a
closing `"}"`. -/
def display [ToString T] [Zero T] (m : Matrix T) : String :=
  ((List.range m.rows).foldl
    (fun s i =>
      ((List.range m.columns).foldl
        (fun s2 j =>
          (s2 ++ toString (m.data.getD (i * m.columns + j) 0) ++ " ") ++
            (if j != m.columns - 1 then " " else ""))
        s) ++ (if i != m.rows - 1 then ", " else ""))
    "\x7b") ++ "\x7d"

/-! ### Characterization of the stride gather -/

theorem stepByAux_eq_drop (step : Nat) :
    ∀ (k : Nat) (l : List T), stepByAux step k l = stepByAux step 0 (l.drop k)
  | 0, l => by simp
  | k + 1, [] => by simp [stepByAux]
  | k + 1, x :: xs => by
    simpa [stepByAux] using stepByAux_eq_drop step k xs

theorem stepBy_nil (step : Nat) : stepBy ([] : List T) step = [] := rfl

theorem stepBy_cons (x : T) (xs : List T) (step : Nat) :
    stepBy (x :: xs) step = x :: stepBy (xs.drop (step - 1)) step := by
  cases step with
  | zero => simp [stepBy, stepByAux]
  | succ s => simp [stepBy, stepByAux, stepByAux_eq_drop]

theorem stepBy_eq_map [Zero T] :
    ∀ (R : Nat) (d : List T) (c j : Nat), j < c → d.length = R * c →
      stepBy (d.drop j) c = (List.range R).map (fun k => d.getD (k * c + j) 0)
  | 0, d, c, j, _hj, hL => by
    have hd : d = [] := List.eq_nil_of_length_eq_zero (by simpa using hL)
    subst hd; simp [stepBy_nil]
  | R + 1, d, c, j, hj, hL => by
    have hcpos : 0 < c := by omega
    have hlen : j < d.length := by
      rw [hL, Nat.succ_mul]
      exact Nat.lt_of_lt_of_le hj (Nat.le_add_left c (R * c))
    have hne : d.drop j ≠ [] := by
      intro h
      have : d.length - j = 0 := by simpa using congrArg List.length h
      omega
    obtain ⟨x, xs, hx⟩ := List.exists_cons_of_ne_nil hne
    have hx0 : d[j]? = some x := by
      have : (d.drop j)[0]? = some x := by rw [hx]; simp
      simpa [List.getElem?_drop] using this
    have hxval : x = d.getD j 0 := by
      simp [List.getD_eq_getElem?_getD, hx0]
    have hxs : xs = d.drop (j + 1) := by
      have : (d.drop j).drop 1 = d.drop (j + 1) := by
        rw [List.drop_drop]
      rw [hx] at this
      simpa using this
    have hdrop : xs.drop (c - 1) = (d.drop c).drop j := by
      rw [hxs, List.drop_drop, List.drop_drop]
      congr 1
      omega
    have hlen' : (d.drop c).length = R * c := by
      simp [hL, Nat.succ_mul]
    have ih := stepBy_eq_map R (d.drop c) c j hj hlen'
    rw [hx, stepBy_cons, hdrop, ih]
    have hsplit : (List.range (R + 1)).map (fun k => d.getD (k * c + j) 0) =
        d.getD j 0 :: (List.range R).map (fun k => d.getD ((1 + k) * c + j) 0) := by
      have hrange : List.range (R + 1) = List.range (1 + R) := by rw [Nat.add_comm]
      rw [hrange, List.range_add]
      simp [List.range_succ, Function.comp_def]
    rw [hsplit, ← hxval]
    congr 1
    apply List.map_congr_left
    intro k _
    have hidx : c + (k * c + j) = (1 + k) * c + j := by ring
    simp [List.getD_eq_getElem?_getD, List.getElem?_drop, hidx]

/-! ### Row slice and generic fold lemmas -/

theorem take_drop_eq_map [Zero T] (d : List T) (R c i : Nat) (hi : i < R)
    (hL : d.length = R * c) :
    (d.drop (i * c)).take c = (List.range c).map (fun k => d.getD (i * c + k) 0) := by
  apply List.ext_getElem?
  intro n
  by_cases hn : n < c
  · have hin : i * c + n < d.length := by
      rw [hL]
      calc i * c + n < i * c + c := by omega
        _ = (i + 1) * c := by ring
        _ ≤ R * c := Nat.mul_le_mul_right c (by omega)
    have hleft : ((d.drop (i * c)).take c)[n]? = d[i * c + n]? := by
      rw [List.getElem?_take_of_lt hn, List.getElem?_drop]
    have hd : d[i * c + n]? = some (d.getD (i * c + n) 0) := by
      rw [List.getElem?_eq_getElem hin]
      simp [List.getD_eq_getElem?_getD, List.getElem?_eq_getElem hin]
    rw [hleft, hd]
    simp [List.getElem?_map, List.getElem?_range hn]
  · have hlen : ((d.drop (i * c)).take c).length ≤ c := by
      simp
    have hleft : ((d.drop (i * c)).take c)[n]? = none :=
      List.getElem?_eq_none (by omega)
    have hright : ((List.range c).map (fun k => d.getD (i * c + k) 0))[n]? = none :=
      List.getElem?_eq_none (by simpa using by omega)
    rw [hleft, hright]

theorem getD_map_range [Zero T] (f : Nat → T) {n k : Nat} (hk : k < n) :
    ((List.range n).map f).getD k 0 = f k := by
  simp [List.getD_eq_getElem?_getD, List.getElem?_map, List.getElem?_range hk]

theorem foldl_ext {α β : Type} (f g : β → α → β) (b : β) :
    ∀ (l : List α), (∀ acc, ∀ x ∈ l, f acc x = g acc x) →
      l.foldl f b = l.foldl g b := by
  intro l
  induction l generalizing b with
  | nil => intro _; rfl
  | cons x xs ih =>
    intro h
    simp only [List.foldl_cons]
    rw [h b x (List.mem_cons_self x xs)]
    exact ih (g b x) (fun acc y hy => h acc y (List.mem_cons_of_mem x hy))

theorem foldl_add_sum [AddMonoid T] : ∀ (l : List T) (b : T),
    l.foldl (· + ·) b = b + l.sum
  | [], b => by simp
  | x :: xs, b => by
    rw [List.foldl_cons, foldl_add_sum xs (b + x), List.sum_cons, add_assoc]

/-! ### Task enumeration -/

theorem flatMap_range_mul : ∀ (r c : Nat),
    (List.range r).flatMap (fun i => (List.range c).map (fun j => i * c + j)) =
      List.range (r * c)
  | 0, c => by simp
  | r + 1, c => by
    rw [List.range_succ, List.flatMap_append, flatMap_range_mul r c]
    have : (r + 1) * c = r * c + c := by ring
    rw [this, List.range_add]
    simp

theorem taskInputs_map_idx (a b : Matrix T) :
    (taskInputs a b).map (fun t => t.idx) = List.range (a.rows * b.columns) := by
  unfold taskInputs
  rw [List.map_flatMap]
  have : ∀ i, ((List.range b.columns).map (fun j => mkTask a b i j)).map
      (fun t => t.idx) = (List.range b.columns).map (fun j => i * b.columns + j) := by
    intro i
    rw [List.map_map]
    rfl
  simp only [this]
  exact flatMap_range_mul a.rows b.columns

theorem taskInputs_idx_nodup (a b : Matrix T) :
    ((taskInputs a b).map (fun t => t.idx)).Nodup := by
  rw [taskInputs_map_idx]
  exact List.nodup_range _

theorem mem_taskInputs {a b : Matrix T} {t : MsgInput T} :
    t ∈ taskInputs a b ↔
      ∃ i j, i < a.rows ∧ j < b.columns ∧ t = mkTask a b i j := by
  unfold taskInputs
  simp only [List.mem_flatMap, List.mem_map, List.mem_range]
  constructor
  · rintro ⟨i, hi, j, hj, rfl⟩
    exact ⟨i, j, hi, hj, rfl⟩
  · rintro ⟨i, j, hi, hj, rfl⟩
    exact ⟨i, hi, j, hj, rfl⟩

theorem mkTask_mem_taskInputs {a b : Matrix T} {i j : Nat}
    (hi : i < a.rows) (hj : j < b.columns) : mkTask a b i j ∈ taskInputs a b :=
  mem_taskInputs.mpr ⟨i, j, hi, hj, rfl⟩

/-! ### Worker queues and replies -/

theorem mem_workerQueue {ts : List (MsgInput T)} {w : Nat} {t : MsgInput T} :
    t ∈ workerQueue ts w ↔ t ∈ ts ∧ t.idx % NUM_THREADS = w := by
  unfold workerQueue
  rw [List.mem_filter]
  simp

theorem workerQueue_idx_nodup {ts : List (MsgInput T)} (w : Nat)
    (h : (ts.map (fun t => t.idx)).Nodup) :
    ((workerQueue ts w).map (fun t => t.idx)).Nodup :=
  List.Nodup.sublist (List.Sublist.map _ (List.filter_sublist ts)) h

theorem workerReplyFor_eq_some [Zero T] [Add T] [Mul T] {v : T} :
    ∀ (q : List (MsgInput T)) (t : MsgInput T),
      t ∈ q →
      (∀ u ∈ q, ∃ w, dot_product u.row u.col = Except.ok w) →
      (∀ u ∈ q, u.idx = t.idx → u = t) →
      dot_product t.row t.col = Except.ok v →
      workerReplyFor q t.idx = some v
  | [], t, ht, _, _, _ => absurd ht (List.not_mem_nil t)
  | u :: q', t, ht, hok, huniq, hv => by
    obtain ⟨w, hw⟩ := hok u (List.mem_cons_self u q')
    by_cases he : u.idx = t.idx
    · have hut : u = t := huniq u (List.mem_cons_self u q') he
      subst hut
      have hwv : w = v := by rw [hw] at hv; exact (Except.ok.inj hv)
      subst hwv
      simp [workerReplyFor, hw]
    · have ht' : t ∈ q' := by
        rcases List.mem_cons.mp ht with h | h
        · exact absurd (by rw [h]) (fun hh : u.idx = t.idx => he hh)
        · exact h
      have ih := workerReplyFor_eq_some q' t ht'
        (fun x hx => hok x (List.mem_cons_of_mem u hx))
        (fun x hx hxi => huniq x (List.mem_cons_of_mem u hx) hxi) hv
      simp [workerReplyFor, hw, he, ih]

/-! ### Collector -/

theorem collectLoop_map_some :
    ∀ (ws : List (MsgOutput T)) (d : List T),
      collectLoop (ws.map some) d = some (applyWrites ws d)
  | [], d => rfl
  | o :: ws, d => by
    simp only [List.map_cons, collectLoop, applyWrites, List.foldl_cons]
    exact collectLoop_map_some ws (d.set o.idx o.val)

theorem collectLoop_some_inv :
    ∀ (os : List (Option (MsgOutput T))) (d out : List T),
      collectLoop os d = some out →
      ∃ ws, os = ws.map some ∧ applyWrites ws d = out
  | [], d, out, h => ⟨[], rfl, by simpa [collectLoop] using h⟩
  | none :: os, d, out, h => by simp [collectLoop] at h
  | some o :: os, d, out, h => by
    obtain ⟨ws, h1, h2⟩ := collectLoop_some_inv os (d.set o.idx o.val) out
      (by simpa [collectLoop] using h)
    exact ⟨o :: ws, by simp [h1], by simpa [applyWrites, List.foldl_cons] using h2⟩

theorem applyWrites_cons (o : MsgOutput T) (ws : List (MsgOutput T)) (d : List T) :
    applyWrites (o :: ws) d = applyWrites ws (d.set o.idx o.val) := rfl

theorem length_applyWrites :
    ∀ (ws : List (MsgOutput T)) (d : List T),
      (applyWrites ws d).length = d.length
  | [], _ => rfl
  | o :: ws, d => by
    rw [applyWrites_cons, length_applyWrites ws (d.set o.idx o.val), List.length_set]

theorem getElem?_applyWrites_of_not_mem :
    ∀ (ws : List (MsgOutput T)) (d : List T) (i : Nat),
      i ∉ ws.map (fun o => o.idx) →
      (applyWrites ws d)[i]? = d[i]?
  | [], _, _, _ => rfl
  | o :: ws, d, i, h => by
    have h1 : o.idx ≠ i := by
      intro he; exact h (by simp [he])
    have h2 : i ∉ ws.map (fun o => o.idx) := by
      intro hm; exact h (by simp [hm])
    rw [applyWrites_cons, getElem?_applyWrites_of_not_mem ws (d.set o.idx o.val) i h2,
      List.getElem?_set_ne h1]

theorem getElem?_applyWrites_of_mem :
    ∀ (ws : List (MsgOutput T)) (d : List T) (o : MsgOutput T),
      (ws.map (fun o => o.idx)).Nodup → o ∈ ws → o.idx < d.length →
      (applyWrites ws d)[o.idx]? = some o.val
  | [], _, o, _, ho, _ => absurd ho (List.not_mem_nil o)
  | u :: ws, d, o, hnd, ho, hlen => by
    simp only [List.map_cons, List.nodup_cons] at hnd
    rcases List.mem_cons.mp ho with h | h
    · subst h
      rw [applyWrites_cons,
        getElem?_applyWrites_of_not_mem ws (d.set o.idx o.val) o.idx hnd.1]
      exact List.getElem?_set_self hlen
    · rw [applyWrites_cons]
      exact getElem?_applyWrites_of_mem ws (d.set u.idx u.val) o hnd.2 h
        (by rw [List.length_set]; exact hlen)

theorem applyWrites_perm {ws₁ ws₂ : List (MsgOutput T)} (d : List T)
    (p : ws₁.Perm ws₂) (hnd : (ws₁.map (fun o => o.idx)).Nodup) :
    applyWrites ws₁ d = applyWrites ws₂ d := by
  unfold applyWrites
  refine p.foldl_eq' ?_ d
  intro x hx y hy z
  by_cases he : x.idx = y.idx
  · have hxy : x = y := List.inj_on_of_nodup_map hnd hx hy he
    subst hxy; rfl
  · exact List.set_comm _ _ _ he

/-! ### The dot product of an extracted row and column -/

theorem dot_product_map_range [AddMonoid T] [Mul T] (f g : Nat → T) (n : Nat) :
    dot_product (Vector.mk ((List.range n).map f)) (Vector.mk ((List.range n).map g)) =
      Except.ok (((List.range n).map (fun k => f k * g k)).sum) := by
  unfold dot_product
  rw [if_neg (by simp)]
  simp only [List.length_map, List.length_range]
  congr 1
  have hext : (List.range n).foldl
      (fun acc k => acc + ((List.range n).map f).getD k 0 * ((List.range n).map g).getD k 0) 0 =
      (List.range n).foldl (fun acc k => acc + f k * g k) 0 := by
    apply foldl_ext
    intro acc x hx
    rw [getD_map_range f (List.mem_range.mp hx), getD_map_range g (List.mem_range.mp hx)]
  rw [hext, ← List.foldl_map (fun k => f k * g k) (· + ·) (List.range n) 0,
    foldl_add_sum, zero_add]

theorem mkTask_idx (a b : Matrix T) (i j : Nat) :
    (mkTask a b i j).idx = i * b.columns + j := rfl

theorem mkTask_row [Zero T] {a : Matrix T} (b : Matrix T) {i : Nat} (j : Nat)
    (ha : wf a) (hi : i < a.rows) :
    (mkTask a b i j).row = Vector.mk ((List.range a.columns).map (fun k => entry a i k)) := by
  have h : (mkTask a b i j).row =
      Vector.mk ((a.data.drop (i * a.columns)).take a.columns) := rfl
  rw [h]
  exact congrArg Vector.mk (take_drop_eq_map a.data a.rows a.columns i hi ha)

theorem mkTask_col [Zero T] (a : Matrix T) {b : Matrix T} (i : Nat) {j : Nat}
    (hb : wf b) (hj : j < b.columns) :
    (mkTask a b i j).col = Vector.mk ((List.range b.rows).map (fun k => entry b k j)) := by
  have h : (mkTask a b i j).col =
      Vector.mk (stepBy (b.data.drop j) b.columns) := rfl
  rw [h]
  exact congrArg Vector.mk (stepBy_eq_map b.rows b.data b.columns j hj hb)

theorem dot_mkTask [AddMonoid T] [Mul T] {a b : Matrix T} {i j : Nat}
    (ha : wf a) (hb : wf b) (hc : a.columns = b.rows)
    (hi : i < a.rows) (hj : j < b.columns) :
    dot_product (mkTask a b i j).row (mkTask a b i j).col =
      Except.ok (matMulSpec a b i j) := by
  rw [mkTask_row b j ha hi, mkTask_col a i hb hj, ← hc]
  exact dot_product_map_range _ _ a.columns

/-- The cell value that the task with destination index `idx` computes,
expressed as a function of the task's index alone
(`idx = i * b.columns + j` with `j < b.columns`). -/
def specOf [Zero T] [Add T] [Mul T] (a b : Matrix T) (t : MsgInput T) : T :=
  matMulSpec a b (t.idx / b.columns) (t.idx % b.columns)

theorem specOf_mkTask [Zero T] [Add T] [Mul T] (a b : Matrix T) {i j : Nat}
    (hj : j < b.columns) : specOf a b (mkTask a b i j) = matMulSpec a b i j := by
  unfold specOf
  rw [mkTask_idx]
  have hdiv : (i * b.columns + j) / b.columns = i := by
    rw [Nat.mul_comm i b.columns, Nat.mul_add_div (by omega), Nat.div_eq_of_lt hj,
      Nat.add_zero]
  have hmod : (i * b.columns + j) % b.columns = j := by
    rw [Nat.mul_comm i b.columns, Nat.mul_add_mod, Nat.mod_eq_of_lt hj]
  rw [hdiv, hmod]

/-! ### Every task of a well-formed multiplication is answered -/

theorem taskInputs_dot_ok [AddMonoid T] [Mul T] {a b : Matrix T}
    (ha : wf a) (hb : wf b) (hc : a.columns = b.rows) :
    ∀ u ∈ taskInputs a b, ∃ w, dot_product u.row u.col = Except.ok w := by
  intro u hu
  obtain ⟨i, j, hi, hj, rfl⟩ := mem_taskInputs.mp hu
  exact ⟨matMulSpec a b i j, dot_mkTask ha hb hc hi hj⟩

theorem taskReply_eq_some [AddMonoid T] [Mul T] {a b : Matrix T}
    (ha : wf a) (hb : wf b) (hc : a.columns = b.rows) {t : MsgInput T}
    (ht : t ∈ taskInputs a b) :
    taskReply a b t = some (specOf a b t) := by
  obtain ⟨i, j, hi, hj, rfl⟩ := mem_taskInputs.mp ht
  unfold taskReply
  set q := workerQueue (taskInputs a b) ((mkTask a b i j).idx % NUM_THREADS) with hq
  have hqsub : ∀ u ∈ q, u ∈ taskInputs a b := fun u hu => (mem_workerQueue.mp hu).1
  have hmemq : mkTask a b i j ∈ q :=
    mem_workerQueue.mpr ⟨mkTask_mem_taskInputs hi hj, rfl⟩
  have hnodup : (q.map (fun t => t.idx)).Nodup := by
    rw [hq]
    exact workerQueue_idx_nodup _ (taskInputs_idx_nodup a b)
  have huniq : ∀ u ∈ q, u.idx = (mkTask a b i j).idx → u = mkTask a b i j :=
    fun u hu he => List.inj_on_of_nodup_map hnodup hu hmemq he
  rw [specOf_mkTask a b hj]
  exact workerReplyFor_eq_some q (mkTask a b i j) hmemq
    (fun u hu => taskInputs_dot_ok ha hb hc u (hqsub u hu)) huniq
    (dot_mkTask ha hb hc hi hj)

/-- The writes a successful well-formed `multiply` performs: one
`MsgOutput` per task, carrying the task's destination index and the
standard product cell for that index. -/
def resultWrites [Zero T] [Add T] [Mul T] (a b : Matrix T) : List (MsgOutput T) :=
  (taskInputs a b).map fun t => MsgOutput.mk t.idx (specOf a b t)

theorem resultWrites_map_idx [Zero T] [Add T] [Mul T] (a b : Matrix T) :
    (resultWrites a b).map (fun o => o.idx) = List.range (a.rows * b.columns) := by
  unfold resultWrites
  rw [List.map_map]
  exact taskInputs_map_idx a b

/-- Under the length invariant and compatible dimensions, the dispatch
loop's slice accesses are in bounds unless the degenerate panicking corner
is hit: a nonempty loop (`a.rows > 0` and `b.columns > 1`) over a right
operand with zero rows — there `other.data[j..]` panics for `j ≥ 1`. -/
theorem dispatchInBounds_of_wf {a b : Matrix T}
    (ha : wf a) (hb : wf b)
    (hdeg : a.rows = 0 ∨ 0 < b.rows ∨ b.columns ≤ 1) :
    dispatchInBounds a b = true := by
  unfold dispatchInBounds
  simp only [List.all_eq_true, List.mem_range, Bool.and_eq_true, decide_eq_true_eq]
  intro i hi j hj
  constructor
  · rw [ha]
    exact Nat.mul_le_mul_right a.columns (by omega)
  · rw [hb]
    rcases hdeg with h0 | hpos | h1
    · omega
    · have : b.columns ≤ b.rows * b.columns := Nat.le_mul_of_pos_left b.columns hpos
      omega
    · omega

/-- A well-formed, dimension-compatible `multiply` that does not hit the
degenerate slice panic succeeds, and its data is the collector's writes
applied to the default-initialized buffer. -/
theorem multiply_wf_eq [AddMonoid T] [Mul T] {a b : Matrix T}
    (ha : wf a) (hb : wf b) (hc : a.columns = b.rows)
    (hdeg : a.rows = 0 ∨ 0 < b.rows ∨ b.columns ≤ 1) :
    multiply a b = MultiplyResult.ok
      { rows := a.rows, columns := b.columns
      , data := applyWrites (resultWrites a b)
          (List.replicate (a.rows * b.columns) 0) } := by
  unfold multiply
  rw [if_neg (by simp [hc]), if_pos (by rw [dispatchInBounds_of_wf ha hb hdeg])]
  have houtcomes : (taskInputs a b).map
      (fun t => (taskReply a b t).map fun v => MsgOutput.mk t.idx v) =
      (resultWrites a b).map some := by
    unfold resultWrites
    rw [List.map_map]
    apply List.map_congr_left
    intro t ht
    rw [taskReply_eq_some ha hb hc ht]
    rfl
  rw [houtcomes, collectLoop_map_some]

/-- Entry `(i, j)` of the buffer a successful well-formed multiply builds. -/
theorem multiply_wf_entry [AddMonoid T] [Mul T] {a b : Matrix T}
    (_ha : wf a) (_hb : wf b) (_hc : a.columns = b.rows) {i j : Nat}
    (hi : i < a.rows) (hj : j < b.columns) :
    (applyWrites (resultWrites a b)
        (List.replicate (a.rows * b.columns) 0)).getD (i * b.columns + j) 0 =
      matMulSpec a b i j := by
  have hidx : i * b.columns + j < a.rows * b.columns := by
    calc i * b.columns + j < i * b.columns + b.columns := by omega
      _ = (i + 1) * b.columns := by ring
      _ ≤ a.rows * b.columns := Nat.mul_le_mul_right b.columns (by omega)
  have hnd : ((resultWrites a b).map (fun o => o.idx)).Nodup := by
    rw [resultWrites_map_idx]
    exact List.nodup_range _
  have hmem : MsgOutput.mk (i * b.columns + j) (matMulSpec a b i j) ∈
      resultWrites a b := by
    have h1 : MsgOutput.mk (mkTask a b i j).idx (specOf a b (mkTask a b i j)) ∈
        resultWrites a b :=
      List.mem_map_of_mem _ (mkTask_mem_taskInputs hi hj)
    rwa [mkTask_idx, specOf_mkTask a b hj] at h1
  have hget := getElem?_applyWrites_of_mem (resultWrites a b)
    (List.replicate (a.rows * b.columns) (0 : T))
    (MsgOutput.mk (i * b.columns + j) (matMulSpec a b i j)) hnd hmem
    (by simpa using hidx)
  simp only [List.getD_eq_getElem?_getD, hget]
  rfl

/-! ### Inversion of a successful multiply and the failure path -/

theorem multiply_ok_inv [Zero T] [Add T] [Mul T] {a b m : Matrix T}
    (h : multiply a b = MultiplyResult.ok m) :
    a.columns = b.rows ∧ dispatchInBounds a b = true ∧
    ∃ ws, ((taskInputs a b).map fun t =>
        (taskReply a b t).map fun v => MsgOutput.mk t.idx v) = ws.map some ∧
      m = { rows := a.rows, columns := b.columns
          , data := applyWrites ws (List.replicate (a.rows * b.columns) 0) } := by
  unfold multiply at h
  by_cases hc : a.columns = b.rows
  · rw [if_neg (by simp [hc])] at h
    by_cases hg : dispatchInBounds a b = true
    · rw [if_pos hg] at h
      rcases hX : collectLoop ((taskInputs a b).map fun t =>
          (taskReply a b t).map fun v => MsgOutput.mk t.idx v)
          (List.replicate (a.rows * b.columns) 0) with _ | data
      · rw [hX] at h; exact absurd h (by simp)
      · rw [hX] at h
        obtain ⟨ws, h1, h2⟩ := collectLoop_some_inv _ _ _ hX
        refine ⟨hc, hg, ws, h1, ?_⟩
        have hm : MultiplyResult.ok
            { rows := a.rows, columns := b.columns, data := data } =
            MultiplyResult.ok m := h
        rw [← MultiplyResult.ok.inj hm, h2]
    · rw [if_neg hg] at h; exact absurd h (by simp)
  · rw [if_pos hc] at h; exact absurd h (by simp)

theorem collectLoop_none_of_mem :
    ∀ (os : List (Option (MsgOutput T))) (d : List T),
      none ∈ os → collectLoop os d = none
  | [], _, h => absurd h (List.not_mem_nil none)
  | none :: os, d, _ => rfl
  | some o :: os, d, h => by
    have h' : none ∈ os := by
      rcases List.mem_cons.mp h with h0 | h0
      · exact absurd h0.symm (by simp)
      · exact h0
    simpa [collectLoop] using collectLoop_none_of_mem os (d.set o.idx o.val) h'

theorem workerReplyFor_eq_none [Zero T] [Add T] [Mul T] :
    ∀ (q : List (MsgInput T)) (t : MsgInput T),
      t ∈ q →
      (∀ u ∈ q, u.idx = t.idx → u = t) →
      (∃ e, dot_product t.row t.col = Except.error e) →
      workerReplyFor q t.idx = none
  | [], t, ht, _, _ => absurd ht (List.not_mem_nil t)
  | u :: q', t, ht, huniq, he => by
    rcases hdu : dot_product u.row u.col with e | v
    · simp [workerReplyFor, hdu]
    · by_cases hidx : u.idx = t.idx
      · have hut : u = t := huniq u (List.mem_cons_self u q') hidx
        obtain ⟨e, hte⟩ := he
        rw [hut, hte] at hdu
        exact absurd hdu (by simp)
      · have ht' : t ∈ q' := by
          rcases List.mem_cons.mp ht with h | h
          · exact absurd (by rw [h]) (fun hh : u.idx = t.idx => hidx hh)
          · exact h
        have ih := workerReplyFor_eq_none q' t ht'
          (fun x hx hxi => huniq x (List.mem_cons_of_mem u hx) hxi) he
        simp [workerReplyFor, hdu, hidx, ih]

/-- A task whose dot product fails is never answered: its reply channel's
sender is dropped. -/
theorem taskReply_eq_none [Zero T] [Add T] [Mul T] {a b : Matrix T}
    {t : MsgInput T} (ht : t ∈ taskInputs a b)
    (he : ∃ e, dot_product t.row t.col = Except.error e) :
    taskReply a b t = none := by
  unfold taskReply
  set q := workerQueue (taskInputs a b) (t.idx % NUM_THREADS) with hq
  have hmemq : t ∈ q := mem_workerQueue.mpr ⟨ht, rfl⟩
  have hnodup : (q.map (fun t => t.idx)).Nodup := by
    rw [hq]
    exact workerQueue_idx_nodup _ (taskInputs_idx_nodup a b)
  exact workerReplyFor_eq_none q t hmemq
    (fun u hu hui => List.inj_on_of_nodup_map hnodup hu hmemq hui) he

/-- Pointwise shape transfer from the outcome list to the collected write
list: a fully-`some` outcome list determines the writes' indices. -/
theorem map_some_keys [Zero T] [Add T] [Mul T] (g : MsgInput T → Option T) :
    ∀ (ts : List (MsgInput T)) (ws : List (MsgOutput T)),
      (ts.map fun t => (g t).map fun v => MsgOutput.mk t.idx v) = ws.map some →
      ws.map (fun o => o.idx) = ts.map (fun t => t.idx)
  | [], [], _ => rfl
  | [], w :: ws, h => by simp at h
  | t :: ts, [], h => by simp at h
  | t :: ts, w :: ws, h => by
    simp only [List.map_cons, List.cons.injEq] at h
    obtain ⟨h1, h2⟩ := h
    obtain ⟨v, _hv, hw⟩ := Option.map_eq_some'.mp h1
    have hidx : w.idx = t.idx := by rw [← hw]
    simp only [List.map_cons, hidx, List.cons.injEq]
    exact ⟨trivial, map_some_keys g ts ws h2⟩

/-! ### The claims -/

/-- C1 (counterexample): the claim quantifies over every invariant-satisfying
pair with compatible dimensions, but for `A = 1×0` and `B = 0×2` (both
well-formed, inner dimensions equal) the dispatch loop evaluates
`other.data[1..]` on data of length 0, which panics; `multiply` aborts
instead of returning `Ok` of the product. -/
theorem C1_counterexample :
    wf (Matrix.new ([] : List Int) 1 0) ∧ wf (Matrix.new ([] : List Int) 0 2) ∧
    (Matrix.new ([] : List Int) 1 0).columns = (Matrix.new ([] : List Int) 0 2).rows ∧
    multiply (Matrix.new ([] : List Int) 1 0) (Matrix.new ([] : List Int) 0 2) =
      MultiplyResult.panicked ∧
    ∀ m : Matrix Int,
      multiply (Matrix.new ([] : List Int) 1 0) (Matrix.new ([] : List Int) 0 2) ≠
        MultiplyResult.ok m := by
  have hp : multiply (Matrix.new ([] : List Int) 1 0) (Matrix.new ([] : List Int) 0 2) =
      MultiplyResult.panicked := by decide
  exact ⟨by decide, by decide, by decide, hp,
    fun m h => by rw [hp] at h; exact MultiplyResult.noConfusion h⟩

/-- C1 (amended): for every invariant-satisfying pair with compatible
dimensions that avoids the panicking corner (right operand with zero rows
while the dispatch loop is nonempty with at least two columns), `multiply`
returns `Ok` of an `a.rows × b.columns` matrix whose flat entry
`i*b.columns + j` is the standard dot product of row `i` of `a` and column
`j` of `b`. -/
theorem C1_multiply_functional {T : Type} [AddMonoid T] [Mul T]
    (a b : Matrix T) (ha : wf a) (hb : wf b) (hc : a.columns = b.rows)
    (hdeg : a.rows = 0 ∨ 0 < b.rows ∨ b.columns ≤ 1) :
    ∃ m, multiply a b = MultiplyResult.ok m ∧ m.rows = a.rows ∧
      m.columns = b.columns ∧ m.data.length = a.rows * b.columns ∧
      ∀ i j, i < a.rows → j < b.columns →
        m.data.getD (i * b.columns + j) 0 = matMulSpec a b i j := by
  refine ⟨_, multiply_wf_eq ha hb hc hdeg, rfl, rfl, ?_, ?_⟩
  · rw [length_applyWrites]
    exact List.length_replicate _ _
  · intro i j hi hj
    exact multiply_wf_entry ha hb hc hi hj

/-- C1 (witness): the amended theorem applied to the repository's own test
vectors, `A = {{1,2,3},{4,5,6}}` and `B = {{1,2},{3,4},{5,6}}`. -/
theorem C1_multiply_functional_witness :
    wf (Matrix.new ([1, 2, 3, 4, 5, 6] : List Int) 2 3) ∧
    wf (Matrix.new ([1, 2, 3, 4, 5, 6] : List Int) 3 2) ∧
    (Matrix.new ([1, 2, 3, 4, 5, 6] : List Int) 2 3).columns =
      (Matrix.new ([1, 2, 3, 4, 5, 6] : List Int) 3 2).rows ∧
    ∃ m, multiply (Matrix.new ([1, 2, 3, 4, 5, 6] : List Int) 2 3)
        (Matrix.new ([1, 2, 3, 4, 5, 6] : List Int) 3 2) = MultiplyResult.ok m ∧
      m.rows = (Matrix.new ([1, 2, 3, 4, 5, 6] : List Int) 2 3).rows ∧
      m.columns = (Matrix.new ([1, 2, 3, 4, 5, 6] : List Int) 3 2).columns ∧
      m.data.length = (Matrix.new ([1, 2, 3, 4, 5, 6] : List Int) 2 3).rows *
        (Matrix.new ([1, 2, 3, 4, 5, 6] : List Int) 3 2).columns ∧
      ∀ i j, i < (Matrix.new ([1, 2, 3, 4, 5, 6] : List Int) 2 3).rows →
        j < (Matrix.new ([1, 2, 3, 4, 5, 6] : List Int) 3 2).columns →
        m.data.getD (i * (Matrix.new ([1, 2, 3, 4, 5, 6] : List Int) 3 2).columns + j) 0 =
          matMulSpec (Matrix.new ([1, 2, 3, 4, 5, 6] : List Int) 2 3)
            (Matrix.new ([1, 2, 3, 4, 5, 6] : List Int) 3 2) i j :=
  ⟨by decide, by decide, by decide,
    C1_multiply_functional _ _ (by decide) (by decide) (by decide)
      (Or.inr (Or.inl (by decide)))⟩

/-- C2: when `self.columns != other.rows`, `multiply` returns the dimension
error immediately — the dispatch loop never runs, so no task is built (and
no worker receives work, no buffer cell is computed). -/
theorem C2_dimension_mismatch_immediate {T : Type} [Zero T] [Add T] [Mul T]
    (a b : Matrix T) (h : a.columns ≠ b.rows) :
    multiply a b = MultiplyResult.dimensionMismatch ∧ dispatchedTasks a b = [] := by
  constructor
  · unfold multiply
    rw [if_pos h]
  · unfold dispatchedTasks
    rw [if_pos h]

/-- C2 (witness): the repository's own failure scenario, a `2×3` times a
`2×2`. -/
theorem C2_dimension_mismatch_immediate_witness :
    (Matrix.new ([1, 2, 3, 4, 5, 6] : List Int) 2 3).columns ≠
      (Matrix.new ([1, 2, 3, 4] : List Int) 2 2).rows ∧
    multiply (Matrix.new ([1, 2, 3, 4, 5, 6] : List Int) 2 3)
        (Matrix.new ([1, 2, 3, 4] : List Int) 2 2) =
      MultiplyResult.dimensionMismatch ∧
    dispatchedTasks (Matrix.new ([1, 2, 3, 4, 5, 6] : List Int) 2 3)
      (Matrix.new ([1, 2, 3, 4] : List Int) 2 2) = [] :=
  ⟨by decide, C2_dimension_mismatch_immediate _ _ (by decide)⟩

/-- C3 (counterexample): with `A = 1×2 {{1,2}}` well-formed and `B` declared
`2×1` but backed by the too-short data `[1]`, the single task's dot product
fails (row length 2, gathered column length 1).  The worker indeed never
sends a `TaskOutput` (`taskReply = none`), but the call does not hang: the
dying worker drops the oneshot sender, the collector's `recv()` returns
`Err(RecvError)`, and `multiply` returns that error. -/
theorem C3_counterexample :
    wf (Matrix.new ([1, 2] : List Int) 1 2) ∧
    (Matrix.new ([1, 2] : List Int) 1 2).columns =
      (Matrix.new ([1] : List Int) 2 1).rows ∧
    (∃ e, dot_product
      (mkTask (Matrix.new ([1, 2] : List Int) 1 2) (Matrix.new ([1] : List Int) 2 1) 0 0).row
      (mkTask (Matrix.new ([1, 2] : List Int) 1 2) (Matrix.new ([1] : List Int) 2 1) 0 0).col =
        Except.error e) ∧
    taskReply (Matrix.new ([1, 2] : List Int) 1 2) (Matrix.new ([1] : List Int) 2 1)
      (mkTask (Matrix.new ([1, 2] : List Int) 1 2) (Matrix.new ([1] : List Int) 2 1) 0 0) =
        none ∧
    multiply (Matrix.new ([1, 2] : List Int) 1 2) (Matrix.new ([1] : List Int) 2 1) =
      MultiplyResult.recvError :=
  ⟨by decide, by decide, ⟨"Dot product length mismatch", rfl⟩, by decide, by decide⟩

/-- C3 (amended): if the dot product fails inside a worker for some
dispatched task (and the dispatch loop itself does not panic), the worker
never sends a `TaskOutput` for that task; the task's oneshot sender is
dropped, so the collector's corresponding `recv()` resolves with
`Err(RecvError)` and `multiply` returns that error — the dot-product error
itself is silently dropped, but the call returns instead of hanging. -/
theorem C3_worker_failure_returns_error {T : Type} [AddMonoid T] [Mul T]
    (a b : Matrix T) (hc : a.columns = b.rows)
    (hg : dispatchInBounds a b = true) (t : MsgInput T)
    (ht : t ∈ taskInputs a b)
    (he : ∃ e, dot_product t.row t.col = Except.error e) :
    taskReply a b t = none ∧ multiply a b = MultiplyResult.recvError := by
  have h1 : taskReply a b t = none := taskReply_eq_none ht he
  refine ⟨h1, ?_⟩
  unfold multiply
  rw [if_neg (by simp [hc]), if_pos hg]
  have hnone : none ∈ (taskInputs a b).map
      (fun t => (taskReply a b t).map fun v => MsgOutput.mk t.idx v) := by
    have heq : ((taskReply a b t).map fun v => MsgOutput.mk t.idx v) = none := by
      rw [h1]; rfl
    exact heq ▸ List.mem_map_of_mem _ ht
  rw [collectLoop_none_of_mem _ _ hnone]

/-- C3 (witness): the amended theorem at the concrete counterexample
input. -/
theorem C3_worker_failure_returns_error_witness :
    (Matrix.new ([1, 2] : List Int) 1 2).columns =
      (Matrix.new ([1] : List Int) 2 1).rows ∧
    dispatchInBounds (Matrix.new ([1, 2] : List Int) 1 2)
      (Matrix.new ([1] : List Int) 2 1) = true ∧
    (mkTask (Matrix.new ([1, 2] : List Int) 1 2) (Matrix.new ([1] : List Int) 2 1) 0 0) ∈
      taskInputs (Matrix.new ([1, 2] : List Int) 1 2) (Matrix.new ([1] : List Int) 2 1) ∧
    (∃ e, dot_product
      (mkTask (Matrix.new ([1, 2] : List Int) 1 2) (Matrix.new ([1] : List Int) 2 1) 0 0).row
      (mkTask (Matrix.new ([1, 2] : List Int) 1 2) (Matrix.new ([1] : List Int) 2 1) 0 0).col =
        Except.error e) ∧
    taskReply (Matrix.new ([1, 2] : List Int) 1 2) (Matrix.new ([1] : List Int) 2 1)
      (mkTask (Matrix.new ([1, 2] : List Int) 1 2) (Matrix.new ([1] : List Int) 2 1) 0 0) =
        none ∧
    multiply (Matrix.new ([1, 2] : List Int) 1 2) (Matrix.new ([1] : List Int) 2 1) =
      MultiplyResult.recvError :=
  ⟨by decide, by decide, by decide, ⟨"Dot product length mismatch", rfl⟩,
    C3_worker_failure_returns_error _ _ (by decide) (by decide) _ (by decide)
      ⟨"Dot product length mismatch", rfl⟩⟩

/-- C4: on the repository's test vectors `A = {{1,2,3},{4,5,6}}` (2×3) and
`B = {{1,2},{3,4},{5,6}}` (3×2), `multiply` returns the 2×2 matrix
`{{22,28},{49,64}}`, and its `Display` rendering is exactly
`"{22  28 , 49  64 }"`. -/
theorem C4_concrete_product_and_display :
    multiply (Matrix.new ([1, 2, 3, 4, 5, 6] : List Int) 2 3)
        (Matrix.new ([1, 2, 3, 4, 5, 6] : List Int) 3 2) =
      MultiplyResult.ok (Matrix.new ([22, 28, 49, 64] : List Int) 2 2) ∧
    display (Matrix.new ([22, 28, 49, 64] : List Int) 2 2) =
      "\x7b22  28 , 49  64 \x7d" := by
  constructor
  · decide
  · decide

/-- C5: on well-formed operands the operator form `a * b` has the semantics
of `multiply`: when the dimensions are compatible it yields exactly the
matrix `multiply` returns `Ok` with (or aborts exactly when `multiply`
itself aborts on the degenerate slice panic — never turning a recoverable
error into a panic), and on a dimension mismatch it panics in the calling
thread where `multiply` returns the recoverable error. -/
theorem C5_operator_alias {T : Type} [AddMonoid T] [Mul T]
    (a b : Matrix T) (ha : wf a) (hb : wf b) :
    (a.columns = b.rows →
      (∃ m, multiply a b = MultiplyResult.ok m ∧ mul a b = MulOutcome.value m) ∨
      (multiply a b = MultiplyResult.panicked ∧ mul a b = MulOutcome.panicked)) ∧
    (a.columns ≠ b.rows →
      multiply a b = MultiplyResult.dimensionMismatch ∧
        mul a b = MulOutcome.panicked) := by
  constructor
  · intro hc
    by_cases hdeg : a.rows = 0 ∨ 0 < b.rows ∨ b.columns ≤ 1
    · left
      refine ⟨_, multiply_wf_eq ha hb hc hdeg, ?_⟩
      unfold mul
      rw [multiply_wf_eq ha hb hc hdeg]
    · right
      have h0 : b.rows = 0 := by omega
      have hcols : 1 < b.columns := by omega
      have harows : 0 < a.rows := by omega
      have hguard : dispatchInBounds a b = false := by
        rw [Bool.eq_false_iff]
        intro htrue
        simp only [dispatchInBounds, List.all_eq_true, List.mem_range,
          Bool.and_eq_true, decide_eq_true_eq] at htrue
        have h2 := (htrue 0 harows 1 hcols).2
        rw [hb, h0] at h2
        omega
      have hp : multiply a b = MultiplyResult.panicked := by
        unfold multiply
        rw [if_neg (by simp [hc]), if_neg (by simp [hguard])]
      exact ⟨hp, by unfold mul; rw [hp]⟩
  · intro hc
    have h1 : multiply a b = MultiplyResult.dimensionMismatch := by
      unfold multiply
      rw [if_pos hc]
    exact ⟨h1, by unfold mul; rw [h1]⟩

/-- C5 (witness): the operator alias at the repository's test vectors. -/
theorem C5_operator_alias_witness :
    wf (Matrix.new ([1, 2, 3, 4, 5, 6] : List Int) 2 3) ∧
    wf (Matrix.new ([1, 2, 3, 4, 5, 6] : List Int) 3 2) ∧
    (((Matrix.new ([1, 2, 3, 4, 5, 6] : List Int) 2 3).columns =
        (Matrix.new ([1, 2, 3, 4, 5, 6] : List Int) 3 2).rows →
      (∃ m, multiply (Matrix.new ([1, 2, 3, 4, 5, 6] : List Int) 2 3)
          (Matrix.new ([1, 2, 3, 4, 5, 6] : List Int) 3 2) = MultiplyResult.ok m ∧
        mul (Matrix.new ([1, 2, 3, 4, 5, 6] : List Int) 2 3)
          (Matrix.new ([1, 2, 3, 4, 5, 6] : List Int) 3 2) = MulOutcome.value m) ∨
      (multiply (Matrix.new ([1, 2, 3, 4, 5, 6] : List Int) 2 3)
          (Matrix.new ([1, 2, 3, 4, 5, 6] : List Int) 3 2) = MultiplyResult.panicked ∧
        mul (Matrix.new ([1, 2, 3, 4, 5, 6] : List Int) 2 3)
          (Matrix.new ([1, 2, 3, 4, 5, 6] : List Int) 3 2) = MulOutcome.panicked)) ∧
    ((Matrix.new ([1, 2, 3, 4, 5, 6] : List Int) 2 3).columns ≠
        (Matrix.new ([1, 2, 3, 4, 5, 6] : List Int) 3 2).rows →
      multiply (Matrix.new ([1, 2, 3, 4, 5, 6] : List Int) 2 3)
          (Matrix.new ([1, 2, 3, 4, 5, 6] : List Int) 3 2) =
        MultiplyResult.dimensionMismatch ∧
      mul (Matrix.new ([1, 2, 3, 4, 5, 6] : List Int) 2 3)
          (Matrix.new ([1, 2, 3, 4, 5, 6] : List Int) 3 2) = MulOutcome.panicked)) :=
  ⟨by decide, by decide, C5_operator_alias _ _ (by decide) (by decide)⟩

/-- C6: `dot_product` fails exactly when the two vectors' lengths differ,
and otherwise returns the left-to-right accumulation, from the zero/default
value, of `Σ a[k]*b[k]` over `k ∈ [0, length)`. -/
theorem C6_dot_product_spec {T : Type} [AddMonoid T] [Mul T] (a b : Vector T) :
    ((∃ e, dot_product a b = Except.error e) ↔
      a.elements.length ≠ b.elements.length) ∧
    (a.elements.length = b.elements.length →
      dot_product a b = Except.ok ((List.range a.elements.length).foldl
        (fun acc k => acc + a.elements.getD k 0 * b.elements.getD k 0) 0)) := by
  constructor
  · constructor
    · rintro ⟨e, he⟩ heq
      rw [dot_product, if_neg (by simpa using heq)] at he
      exact Except.noConfusion he
    · intro hlen
      exact ⟨"Dot product length mismatch", by rw [dot_product, if_pos hlen]⟩
  · intro hlen
    rw [dot_product, if_neg (by simpa using hlen)]

/-- C6 (witness): the characterization at the concrete vectors `[1,2]` and
`[3,4]`. -/
theorem C6_dot_product_spec_witness :
    ((∃ e, dot_product (Vector.mk ([1, 2] : List Int)) (Vector.mk [3, 4]) =
        Except.error e) ↔
      (Vector.mk ([1, 2] : List Int)).elements.length ≠
        (Vector.mk ([3, 4] : List Int)).elements.length) ∧
    ((Vector.mk ([1, 2] : List Int)).elements.length =
        (Vector.mk ([3, 4] : List Int)).elements.length →
      dot_product (Vector.mk ([1, 2] : List Int)) (Vector.mk [3, 4]) =
        Except.ok ((List.range (Vector.mk ([1, 2] : List Int)).elements.length).foldl
          (fun acc k => acc + (Vector.mk ([1, 2] : List Int)).elements.getD k 0 *
            (Vector.mk ([3, 4] : List Int)).elements.getD k 0) 0)) :=
  C6_dot_product_spec (Vector.mk [1, 2]) (Vector.mk [3, 4])

/-- C7: in every successful `multiply` call, the dispatched tasks enumerate
each destination index of `[0, rows*other.columns)` exactly once, every
dispatched task's reply resolved with a value (consumed by the collector
before the call returned), and the returned buffer has exactly
`rows*other.columns` slots. -/
theorem C7_coverage_exactly_once {T : Type} [Zero T] [Add T] [Mul T]
    (a b m : Matrix T) (h : multiply a b = MultiplyResult.ok m) :
    (dispatchedTasks a b).map (fun t => t.idx) = List.range (a.rows * b.columns) ∧
    (∀ i, i < a.rows * b.columns →
      ((dispatchedTasks a b).map (fun t => t.idx)).count i = 1) ∧
    (∀ t ∈ dispatchedTasks a b, ∃ v, taskReply a b t = some v) ∧
    m.data.length = a.rows * b.columns := by
  obtain ⟨hc, _hg, ws, hos, hm⟩ := multiply_ok_inv h
  have hdisp : dispatchedTasks a b = taskInputs a b := by
    unfold dispatchedTasks
    rw [if_neg (by simp [hc])]
  refine ⟨?_, ?_, ?_, ?_⟩
  · rw [hdisp]
    exact taskInputs_map_idx a b
  · intro i hi
    rw [hdisp, taskInputs_map_idx]
    exact List.count_eq_one_of_mem (List.nodup_range _) (List.mem_range.mpr hi)
  · intro t ht
    rw [hdisp] at ht
    have hmem : ((taskReply a b t).map fun v => MsgOutput.mk t.idx v) ∈ ws.map some := by
      rw [← hos]
      exact List.mem_map_of_mem _ ht
    obtain ⟨w, _hw, hweq⟩ := List.mem_map.mp hmem
    obtain ⟨v, hv, _⟩ := Option.map_eq_some'.mp hweq.symm
    exact ⟨v, hv⟩
  · rw [hm]
    simp only [length_applyWrites]
    exact List.length_replicate _ _

/-- C7 (witness): coverage at the repository's test vectors. -/
theorem C7_coverage_exactly_once_witness :
    multiply (Matrix.new ([1, 2, 3, 4, 5, 6] : List Int) 2 3)
        (Matrix.new ([1, 2, 3, 4, 5, 6] : List Int) 3 2) =
      MultiplyResult.ok (Matrix.new ([22, 28, 49, 64] : List Int) 2 2) ∧
    ((dispatchedTasks (Matrix.new ([1, 2, 3, 4, 5, 6] : List Int) 2 3)
        (Matrix.new ([1, 2, 3, 4, 5, 6] : List Int) 3 2)).map (fun t => t.idx) =
      List.range ((Matrix.new ([1, 2, 3, 4, 5, 6] : List Int) 2 3).rows *
        (Matrix.new ([1, 2, 3, 4, 5, 6] : List Int) 3 2).columns) ∧
    (∀ i, i < (Matrix.new ([1, 2, 3, 4, 5, 6] : List Int) 2 3).rows *
        (Matrix.new ([1, 2, 3, 4, 5, 6] : List Int) 3 2).columns →
      ((dispatchedTasks (Matrix.new ([1, 2, 3, 4, 5, 6] : List Int) 2 3)
        (Matrix.new ([1, 2, 3, 4, 5, 6] : List Int) 3 2)).map (fun t => t.idx)).count i = 1) ∧
    (∀ t ∈ dispatchedTasks (Matrix.new ([1, 2, 3, 4, 5, 6] : List Int) 2 3)
        (Matrix.new ([1, 2, 3, 4, 5, 6] : List Int) 3 2),
      ∃ v, taskReply (Matrix.new ([1, 2, 3, 4, 5, 6] : List Int) 2 3)
        (Matrix.new ([1, 2, 3, 4, 5, 6] : List Int) 3 2) t = some v) ∧
    (Matrix.new ([22, 28, 49, 64] : List Int) 2 2).data.length =
      (Matrix.new ([1, 2, 3, 4, 5, 6] : List Int) 2 3).rows *
        (Matrix.new ([1, 2, 3, 4, 5, 6] : List Int) 3 2).columns) :=
  ⟨by decide, C7_coverage_exactly_once _ _ _ (by decide)⟩

/-- C8: the worker count is the constant 4, and a dispatched task with
destination index `idx` sits in worker `w`'s queue exactly when
`w = idx % NUM_THREADS` — a static assignment depending only on the index
(the model has no notion of load or timing at all). -/
theorem C8_static_round_robin {T : Type} (a b : Matrix T) (t : MsgInput T)
    (ht : t ∈ dispatchedTasks a b) :
    NUM_THREADS = 4 ∧
    ∀ w, t ∈ workerQueue (dispatchedTasks a b) w ↔ t.idx % NUM_THREADS = w := by
  refine ⟨rfl, ?_⟩
  intro w
  rw [mem_workerQueue]
  constructor
  · rintro ⟨_, hmod⟩
    exact hmod
  · intro hmod
    exact ⟨ht, hmod⟩

/-- C8 (witness): the routing rule for the task of destination index 1 of
the repository's test vectors (`1 % 4 = 1`). -/
theorem C8_static_round_robin_witness :
    (mkTask (Matrix.new ([1, 2, 3, 4, 5, 6] : List Int) 2 3)
        (Matrix.new ([1, 2, 3, 4, 5, 6] : List Int) 3 2) 0 1) ∈
      dispatchedTasks (Matrix.new ([1, 2, 3, 4, 5, 6] : List Int) 2 3)
        (Matrix.new ([1, 2, 3, 4, 5, 6] : List Int) 3 2) ∧
    NUM_THREADS = 4 ∧
    ∀ w, (mkTask (Matrix.new ([1, 2, 3, 4, 5, 6] : List Int) 2 3)
        (Matrix.new ([1, 2, 3, 4, 5, 6] : List Int) 3 2) 0 1) ∈
      workerQueue (dispatchedTasks (Matrix.new ([1, 2, 3, 4, 5, 6] : List Int) 2 3)
        (Matrix.new ([1, 2, 3, 4, 5, 6] : List Int) 3 2)) w ↔
      (mkTask (Matrix.new ([1, 2, 3, 4, 5, 6] : List Int) 2 3)
        (Matrix.new ([1, 2, 3, 4, 5, 6] : List Int) 3 2) 0 1).idx % NUM_THREADS = w :=
  ⟨by decide, C8_static_round_robin _ _ _ (by decide)⟩

/-- C9: a successful `multiply` is deterministic with respect to worker
completion order: its result has the fixed dimensions, and assembling the
same set of task outputs in any permuted arrival order yields exactly the
data buffer the call returned — the per-cell reply channels make the
assembly independent of which worker finishes first (and the model itself
is a function of the inputs, so two runs agree). -/
theorem C9_deterministic_assembly {T : Type} [Zero T] [Add T] [Mul T]
    (a b m : Matrix T) (h : multiply a b = MultiplyResult.ok m) :
    m.rows = a.rows ∧ m.columns = b.columns ∧
    ∀ ws ws' : List (MsgOutput T),
      ((taskInputs a b).map fun t =>
        (taskReply a b t).map fun v => MsgOutput.mk t.idx v) = ws.map some →
      ws'.Perm ws →
      applyWrites ws' (List.replicate (a.rows * b.columns) 0) = m.data := by
  obtain ⟨_hc, _hg, ws₀, hos₀, hm⟩ := multiply_ok_inv h
  refine ⟨by rw [hm], by rw [hm], ?_⟩
  intro ws ws' hws hperm
  have hws0 : ws = ws₀ := by
    have hmapeq : ws.map some = ws₀.map some := by rw [← hws, ← hos₀]
    exact List.map_injective_iff.mpr (fun x y hxy => Option.some.inj hxy) hmapeq
  subst hws0
  have hkeys : ws.map (fun o => o.idx) = (taskInputs a b).map (fun t => t.idx) :=
    map_some_keys (taskReply a b) (taskInputs a b) ws hws
  have hnd : (ws.map (fun o => o.idx)).Nodup := by
    rw [hkeys]
    exact taskInputs_idx_nodup a b
  have hnd' : (ws'.map (fun o => o.idx)).Nodup :=
    ((hperm.map (fun o => o.idx)).nodup_iff).mpr hnd
  rw [applyWrites_perm _ hperm hnd', hm]

/-- C9 (witness): permutation-independent assembly at the repository's test
vectors. -/
theorem C9_deterministic_assembly_witness :
    multiply (Matrix.new ([1, 2, 3, 4, 5, 6] : List Int) 2 3)
        (Matrix.new ([1, 2, 3, 4, 5, 6] : List Int) 3 2) =
      MultiplyResult.ok (Matrix.new ([22, 28, 49, 64] : List Int) 2 2) ∧
    ((Matrix.new ([22, 28, 49, 64] : List Int) 2 2).rows =
        (Matrix.new ([1, 2, 3, 4, 5, 6] : List Int) 2 3).rows ∧
      (Matrix.new ([22, 28, 49, 64] : List Int) 2 2).columns =
        (Matrix.new ([1, 2, 3, 4, 5, 6] : List Int) 3 2).columns ∧
      ∀ ws ws' : List (MsgOutput Int),
        ((taskInputs (Matrix.new ([1, 2, 3, 4, 5, 6] : List Int) 2 3)
            (Matrix.new ([1, 2, 3, 4, 5, 6] : List Int) 3 2)).map fun t =>
          (taskReply (Matrix.new ([1, 2, 3, 4, 5, 6] : List Int) 2 3)
            (Matrix.new ([1, 2, 3, 4, 5, 6] : List Int) 3 2) t).map fun v =>
              MsgOutput.mk t.idx v) = ws.map some →
        ws'.Perm ws →
        applyWrites ws'
            (List.replicate ((Matrix.new ([1, 2, 3, 4, 5, 6] : List Int) 2 3).rows *
              (Matrix.new ([1, 2, 3, 4, 5, 6] : List Int) 3 2).columns) 0) =
          (Matrix.new ([22, 28, 49, 64] : List Int) 2 2).data) :=
  ⟨by decide, C9_deterministic_assembly _ _ _ (by decide)⟩

/-- C10 (counterexample): `Matrix::new` indeed performs no validation, but
the in-bounds part of the claim fails: for the well-formed, compatible pair
`A = 1×0`, `B = 0×2` the dispatch loop's gather start `other.data[1..]` is
out of bounds (`1 > 0 = other.data.len()`) and the call panics. -/
theorem C10_counterexample :
    wf (Matrix.new ([] : List Int) 1 0) ∧
    wf (Matrix.new ([] : List Int) 0 2) ∧
    (Matrix.new ([] : List Int) 1 0).columns = (Matrix.new ([] : List Int) 0 2).rows ∧
    ¬ accessesInBounds (Matrix.new ([] : List Int) 1 0)
        (Matrix.new ([] : List Int) 0 2) := by
  refine ⟨by decide, by decide, by decide, ?_⟩
  intro h
  have h2 := (h 0 1 (by decide) (by decide)).2.1
  simp [Matrix.new] at h2

/-- C10 (amended): `Matrix::new` stores the supplied data and dimensions
exactly as given with no validation (a matrix violating the length
invariant is constructible), and under the length invariant on both
operands plus compatibility, every slice/index access `multiply` performs
is in bounds provided the degenerate corner is excluded (a nonempty
dispatch loop over a zero-row right operand with at least two columns,
where `other.data[j..]` is out of bounds for `j ≥ 1`). -/
theorem C10_new_unchecked_and_accesses {T : Type} (d : List T) (r c : Nat)
    (a b : Matrix T) (ha : wf a) (hb : wf b) (_hc : a.columns = b.rows)
    (hdeg : a.rows = 0 ∨ 0 < b.rows ∨ b.columns ≤ 1) :
    Matrix.new d r c = { rows := r, columns := c, data := d } ∧
    ¬ wf (Matrix.new ([0] : List Int) 2 2) ∧
    accessesInBounds a b := by
  refine ⟨rfl, by decide, ?_⟩
  intro i j hi hj
  refine ⟨?_, ?_, ?_⟩
  · rw [ha]
    exact Nat.mul_le_mul_right a.columns (by omega)
  · rw [hb]
    rcases hdeg with h0 | hpos | h1
    · omega
    · have := Nat.le_mul_of_pos_left b.columns hpos
      omega
    · omega
  · calc i * b.columns + j < i * b.columns + b.columns := by omega
      _ = (i + 1) * b.columns := by ring
      _ ≤ a.rows * b.columns := Nat.mul_le_mul_right b.columns (by omega)

/-- C10 (witness): the amended theorem at the repository's test vectors. -/
theorem C10_new_unchecked_and_accesses_witness :
    Matrix.new ([7, 8, 9] : List Int) 1 3 =
      { rows := 1, columns := 3, data := [7, 8, 9] } ∧
    ¬ wf (Matrix.new ([0] : List Int) 2 2) ∧
    accessesInBounds (Matrix.new ([1, 2, 3, 4, 5, 6] : List Int) 2 3)
      (Matrix.new ([1, 2, 3, 4, 5, 6] : List Int) 3 2) :=
  C10_new_unchecked_and_accesses [7, 8, 9] 1 3
    (Matrix.new ([1, 2, 3, 4, 5, 6] : List Int) 2 3)
    (Matrix.new ([1, 2, 3, 4, 5, 6] : List Int) 3 2)
    (by decide) (by decide) (by decide) (Or.inr (Or.inl (by decide)))

end Concurrency
